import Mathlib

/-
Verification of the clip-concatenation renderer of the smart-clip repository.

The embedding below models the second (current) `concatVideos` implementation
in src/utils/video.ts (lines 207-374), the ingestion mapping of
`generateSingleSequence` in src/unnamed/part_001 (lines 194-206), and the
letterbox / frame-timing / progress arithmetic of `drawFrame`
(src/utils/video.ts lines 300-333).  Times and sizes are rationals; the
browser-event behaviour of the renderer is modelled as the ordered trace of
observable actions it performs (element creation, audio-context suspension and
resumption, recorder state changes, clip loads, progress finalisation).
-/

namespace SmartClip

/-- A video clip record (src/types.ts `VideoClip`): the fields the renderer
and the ingestion step actually consult are the identity and the natural
duration in seconds. -/
structure VideoClip where
  id : String
  duration : ℚ
  deriving DecidableEq, Repr

/-- One timeline entry (src/types.ts `TimelineItem`): a clip together with the
planner-assigned `cutDuration` in seconds. -/
structure TimelineItem where
  clip : VideoClip
  cutDuration : ℚ
  deriving DecidableEq, Repr

/-- One raw entry of the planner response before ingestion
(src/unnamed/part_001, the parsed `result.timeline` elements). -/
structure ProposedItem where
  clipId : String
  cutDuration : ℚ
  deriving DecidableEq, Repr

/-- The ingestion mapping of `generateSingleSequence`
(src/unnamed/part_001 lines 194-206): each proposed entry is resolved against
the clip list; unknown ids are dropped, and the proposed `cutDuration` is
replaced by `Math.min(item.cutDuration, clip.duration)`. -/
def ingestTimeline (clips : List VideoClip) (raw : List ProposedItem) :
    List TimelineItem :=
  raw.filterMap fun item =>
    (clips.find? fun c => c.id == item.clipId).map fun clip =>
      { clip := clip, cutDuration := min item.cutDuration clip.duration }

/-- `totalDuration` of a timeline (src/utils/video.ts line 229):
the sum of the `cutDuration` fields. -/
def totalOf (timeline : List TimelineItem) : ℚ :=
  (timeline.map (·.cutDuration)).sum

/-- Mime-type selection of `concatVideos` (src/utils/video.ts lines 260-265):
h264 when GPU use is requested and supported, else vp9 when supported, else
the plain container string. -/
def selectMimeType (useGPU h264Supported vp9Supported : Bool) : String :=
  if useGPU && h264Supported then "video/webm; codecs=h264"
  else if vp9Supported then "video/webm; codecs=vp9"
  else "video/webm"

/-- Observable actions of one `concatVideos` run, in program order. -/
inductive Event where
  | canvasCreated
  | audioCtxCreated
  | gainScheduled (totalDuration : ℚ)
  | bgmDecoded
  | bgmStarted (t : ℚ)
  | recorderCreated (mime : String)
  | recorderStarted
  | recorderPaused
  | audioSuspended
  | clipLoadStarted (i : ℕ)
  | clipLoaded (i : ℕ)
  | audioResumed
  | recorderResumed
  | clipPlayed (i : ℕ)
  | clipFinished (i : ℕ)
  | clipLoadFailed (i : ℕ)
  | recorderStopped
  | finalProgressOne
  | audioClosed
  deriving DecidableEq, Repr

/-- Failure kinds of a `concatVideos` run: the empty-timeline rejection
(line 213) and a clip load/decode rejection surfaced by `video.onerror`. -/
inductive RenderError where
  | noClips
  | loadFailure
  deriving DecidableEq, Repr

/-- Trace of one successful loop iteration (src/utils/video.ts lines 348-357
with `playClipSegment`, lines 290-346): the recorder is paused and the audio
context suspended before the clip is loaded, both are resumed once metadata
is available, then the clip plays to its cut point. -/
def clipBlock (i : ℕ) : List Event :=
  [.recorderPaused, .audioSuspended, .clipLoadStarted i, .clipLoaded i,
   .audioResumed, .recorderResumed, .clipPlayed i, .clipFinished i]

/-- Trace of a loop iteration whose clip fails to load: `video.onerror`
rejects, the catch block stops the recorder and rethrows
(src/utils/video.ts lines 358-362). -/
def failBlock (i : ℕ) : List Event :=
  [.recorderPaused, .audioSuspended, .clipLoadStarted i, .clipLoadFailed i,
   .recorderStopped]

/-- The `for (const item of timeline)` loop of `concatVideos`
(lines 348-357), processing `n` items starting at index `i`; `loadOk`
tells whether the load of a given index succeeds.  Returns the emitted
trace and whether the loop ran to completion. -/
def renderLoop (loadOk : ℕ → Bool) : ℕ → ℕ → List Event × Bool
  | _, 0 => ([], true)
  | i, Nat.succ n =>
    if loadOk i then
      let r := renderLoop loadOk (i + 1) n
      (clipBlock i ++ r.1, r.2)
    else
      (failBlock i, false)

/-- Setup trace of `concatVideos` before the playback loop
(lines 215-280, in program order): canvas, audio context, gain-envelope
scheduling, optional BGM decode and one-time source start at offset 0,
recorder creation with the selected mime type, recorder start. -/
def preamble (timeline : List TimelineItem)
    (hasBgm useGPU h264Supported vp9Supported : Bool) : List Event :=
  [.canvasCreated, .audioCtxCreated, .gainScheduled (totalOf timeline)] ++
  (if hasBgm then [.bgmDecoded, .bgmStarted 0] else []) ++
  [.recorderCreated (selectMimeType useGPU h264Supported vp9Supported),
   .recorderStarted]

/-- The second `concatVideos` of src/utils/video.ts (lines 207-374) as a
trace-producing function.  The empty-timeline check (line 213) fires before
any resource is created; on loop success the finalisation promise stops the
recorder, reports progress 1 and closes the audio context (lines 364-373);
on a load failure the catch block stops the recorder and the error
propagates with no output (lines 358-362). -/
def concatVideos (timeline : List TimelineItem)
    (hasBgm useGPU h264Supported vp9Supported : Bool)
    (loadOk : ℕ → Bool) : List Event × Except RenderError Unit :=
  if timeline.length = 0 then ([], .error .noClips)
  else
    let r := renderLoop loadOk 0 timeline.length
    if r.2 then
      (preamble timeline hasBgm useGPU h264Supported vp9Supported ++ r.1 ++
        [.recorderStopped, .finalProgressOne, .audioClosed], .ok ())
    else
      (preamble timeline hasBgm useGPU h264Supported vp9Supported ++ r.1,
       .error .loadFailure)

/-- Sample clip used to evaluate the model on concrete inputs. -/
def clipA : VideoClip := { id := "a", duration := 5 }

/-- Second sample clip. -/
def clipB : VideoClip := { id := "b", duration := 4 }

/-- A concrete two-item timeline. -/
def sampleTimeline : List TimelineItem :=
  [{ clip := clipA, cutDuration := 2 }, { clip := clipB, cutDuration := 3 }]

/-- A concrete one-item timeline. -/
def sampleTimeline1 : List TimelineItem :=
  [{ clip := clipA, cutDuration := 2 }]

/-- Environment in which every clip load succeeds. -/
def allLoadsOk : ℕ → Bool := fun _ => true

/-- Environment in which every clip load fails. -/
def noLoadsOk : ℕ → Bool := fun _ => false

/-! ### Audio gain envelope (src/utils/video.ts lines 228-235) -/

/-- One Web Audio gain-automation event: `setValueAtTime` or
`linearRampToValueAtTime`, with target value and event time. -/
inductive AutomationEvent where
  | setValue (v : ℚ) (t : ℚ)
  | linearRamp (v : ℚ) (t : ℚ)
  deriving DecidableEq, Repr

/-- Event time of an automation event. -/
def AutomationEvent.time : AutomationEvent → ℚ
  | .setValue _ t => t
  | .linearRamp _ t => t

/-- Web Audio semantics: each automation call inserts its event into the
parameter timeline in chronological order, after existing events of the same
time. -/
def insertEvent (e : AutomationEvent) :
    List AutomationEvent → List AutomationEvent
  | [] => [e]
  | f :: rest =>
    if e.time < f.time then e :: f :: rest else f :: insertEvent e rest

/-- The fade length used by `concatVideos`: the constant 1.5 s
(src/utils/video.ts line 230).  No clamping is applied to it. -/
def fadeDuration : ℚ := 3 / 2

/-- The four automation calls of `concatVideos` (lines 232-235), taken
relative to the audio-context time at scheduling:
set 0 at 0, ramp to 1 at `fadeDuration`, set 1 at
`totalDuration - fadeDuration`, ramp to 0 at `totalDuration`. -/
def gainSchedule (totalDuration : ℚ) : List AutomationEvent :=
  insertEvent (.linearRamp 0 totalDuration)
    (insertEvent (.setValue 1 (totalDuration - fadeDuration))
      (insertEvent (.linearRamp 1 fadeDuration)
        (insertEvent (.setValue 0 0) [])))

/-- Web Audio evaluation of a chronologically ordered automation list at
time `t`, starting from value `v0` at time `t0`: a `setValue` event holds its
value from its event time on; a `linearRamp` event interpolates linearly from
the previous event value and time to its own. -/
def evalSchedule (v0 t0 : ℚ) : List AutomationEvent → ℚ → ℚ
  | [], _ => v0
  | .setValue v te :: rest, t =>
    if t < te then v0 else evalSchedule v te rest t
  | .linearRamp v te :: rest, t =>
    if t < te then
      (if t0 < te then v0 + (v - v0) * (t - t0) / (te - t0) else v)
    else evalSchedule v te rest t

/-- The gain of the BGM graph at output time `t` for a render of total
duration `totalDuration`: the scheduled automation timeline evaluated from
the gain parameter default value 1. -/
def gainAt (totalDuration t : ℚ) : ℚ :=
  evalSchedule 1 0 (gainSchedule totalDuration) t

/-- Modelled from the spec words of claim C6 only (for comparison with the
code): a fade length fixed at 1.5 s but clamped to never exceed half the
total duration, with the envelope ramping 0 to 1 over the fade, holding at 1,
then ramping back to 0. -/
def specFadeDuration (totalDuration : ℚ) : ℚ :=
  min (3 / 2) (totalDuration / 2)

/-- Modelled from the spec words of claim C6 only: the claimed envelope
built from the clamped fade length. -/
def specGain (totalDuration t : ℚ) : ℚ :=
  let f := specFadeDuration totalDuration
  if t < f then t / f
  else if t ≤ totalDuration - f then 1
  else (totalDuration - t) / f

/-! ### Letterbox geometry (src/utils/video.ts lines 220-221, 300-304,
318-321) -/

/-- Canvas width set by `concatVideos` (line 220). -/
def canvasW : ℚ := 1080

/-- Canvas height set by `concatVideos` (line 221). -/
def canvasH : ℚ := 1920

/-- `scale = Math.min(canvas.width / video.videoWidth,
canvas.height / video.videoHeight)` (line 300). -/
def scaleFor (vw vh : ℚ) : ℚ :=
  min (canvasW / vw) (canvasH / vh)

/-- Drawn width `w = video.videoWidth * scale` (line 301). -/
def drawnW (vw vh : ℚ) : ℚ := vw * scaleFor vw vh

/-- Drawn height `h = video.videoHeight * scale` (line 302). -/
def drawnH (vw vh : ℚ) : ℚ := vh * scaleFor vw vh

/-- Horizontal offset `x = (canvas.width - w) / 2` (line 303). -/
def drawX (vw vh : ℚ) : ℚ := (canvasW - drawnW vw vh) / 2

/-- Vertical offset `y = (canvas.height - h) / 2` (line 304). -/
def drawY (vw vh : ℚ) : ℚ := (canvasH - drawnH vw vh) / 2

/-- What a composed frame shows at a canvas point. -/
inductive PixelSource where
  | black
  | clipContent
  deriving DecidableEq, Repr

/-- The body of `drawFrame` (lines 318-321): `fillRect` paints the whole
canvas black, then `drawImage` paints the clip into the rectangle at
`(x, y)` of size `w` by `h`; a canvas point therefore shows clip content
exactly when it lies in that rectangle and black otherwise. -/
def composedPixel (vw vh px py : ℚ) : PixelSource :=
  if drawX vw vh ≤ px ∧ px < drawX vw vh + drawnW vw vh ∧
     drawY vw vh ≤ py ∧ py < drawY vw vh + drawnH vw vh
  then .clipContent else .black

/-! ### Frame timing and the cut stop condition
(src/utils/video.ts lines 306-333) -/

/-- What one invocation of `drawFrame` does, per its guards in order:
return without resolving when the element is paused or ended
(line 307), pause and resolve when `video.currentTime >= cutDuration`
(lines 312-316), else draw the frame and report progress. -/
inductive FrameAction where
  | stopEnded
  | haltCut
  | drawAndReport
  deriving DecidableEq, Repr

/-- The guard structure of `drawFrame` at a presented-frame time `t`:
the element is ended once `t` reaches the clip natural duration; otherwise
the cut check fires once `t` reaches `cutDuration`; otherwise the frame is
drawn and progress reported. -/
def drawFrameStep (clipDuration cutDuration t : ℚ) : FrameAction :=
  if clipDuration ≤ t then .stopEnded
  else if cutDuration ≤ t then .haltCut
  else .drawAndReport

/-- The recording frame interval: the canvas stream is captured at 60 fps
(line 251). -/
def frameInterval : ℚ := 1 / 60

/-- Presentation time of frame number `k` on the 60 fps clock. -/
def frameTime (k : ℕ) : ℚ := k * frameInterval

/-- Number of frames of a clip that pass the `currentTime < cutDuration`
guard on the 60 fps clock: the frames `k` with `k / 60 < cutDuration`. -/
def framesFor (cutDuration : ℚ) : ℕ := ⌈60 * cutDuration⌉₊

/-- Presentation time of the last frame drawn for a clip before the cut
check halts drawing. -/
def lastDrawnTime (cutDuration : ℚ) : ℚ :=
  frameTime (framesFor cutDuration - 1)

/-! ### Progress reports (src/utils/video.ts lines 324-325, 356, 367) -/

/-- The progress values reported while one clip plays: after drawing frame
`k` the callback receives
`min((processedDuration + video.currentTime) / totalDuration, 0.99)`
(lines 324-325). -/
def clipReports (totalDuration processed cutDuration : ℚ) : List ℚ :=
  (List.range (framesFor cutDuration)).map fun k =>
    min ((processed + frameTime k) / totalDuration) (99 / 100)

/-- Progress reports over the whole playback loop: after each clip,
`processedDuration` grows by that clip cut duration (line 356). -/
def renderReports (totalDuration : ℚ) : List ℚ → ℚ → List ℚ
  | [], _ => []
  | d :: rest, processed =>
    clipReports totalDuration processed d ++
      renderReports totalDuration rest (processed + d)

/-- All values the progress callback receives over a successful render of a
timeline with the given cut durations: the per-frame reports with
denominator `sum of cutDuration`, then the single `onProgress(1)` at
finalisation (line 367). -/
def allReports (cuts : List ℚ) : List ℚ :=
  renderReports cuts.sum cuts 0 ++ [1]

/-! ### Theorems -/

/-- C10: calling the render entry point `concatVideos` with an empty
timeline rejects immediately with the no-clips error, and the trace is
empty — no canvas, audio context, recorder or other session resource is
created and the progress callback is never invoked. -/
theorem empty_timeline_rejects_before_any_resource
    (hasBgm useGPU h264Supported vp9Supported : Bool) (loadOk : ℕ → Bool) :
    concatVideos [] hasBgm useGPU h264Supported vp9Supported loadOk =
      ([], .error .noClips) :=
  rfl

/-- C1 counterexample: on a concrete two-item render with a background
track in which every load succeeds, the audio pipeline is suspended at the
clip boundary: immediately after clip 0 finishes, the recorder is paused
and the audio context suspended before clip 1 is loaded — refuting that the
audio pipeline is never paused or suspended at a clip boundary. -/
theorem audio_suspended_at_clip_boundary_cex :
    ((concatVideos sampleTimeline true false false false
        allLoadsOk).1.drop 14).take 4 =
      [.clipFinished 0, .recorderPaused, .audioSuspended,
       .clipLoadStarted 1] := by
  decide

/-- C2 counterexample: on a concrete two-item render in which every load
succeeds, clip 1's load has not started by the time clip 0 finishes playing
(it starts exactly once, strictly afterwards) — refuting that clip `i+1`
is loaded concurrently while clip `i` plays. -/
theorem no_concurrent_standby_load_cex :
    ((concatVideos sampleTimeline false false false false
        allLoadsOk).1.take 13).count (Event.clipLoadStarted 1) = 0 ∧
    ((concatVideos sampleTimeline false false false false
        allLoadsOk).1.take 13).count (Event.clipFinished 0) = 1 ∧
    (concatVideos sampleTimeline false false false false
        allLoadsOk).1.count (Event.clipLoadStarted 1) = 1 := by
  refine ⟨by decide, by decide, by decide⟩

/-- C3 counterexample: with hardware acceleration requested and neither the
h264 nor the vp9 codec supported, the render does not fail with an
unsupported-codec error: the recorder is created with the plain
`video/webm` type, frames are drawn and the render succeeds. -/
theorem no_codec_unavailable_failure_cex :
    (concatVideos sampleTimeline1 false true false false allLoadsOk).2 =
      .ok () ∧
    Event.recorderCreated "video/webm" ∈
      (concatVideos sampleTimeline1 false true false false allLoadsOk).1 ∧
    Event.clipPlayed 0 ∈
      (concatVideos sampleTimeline1 false true false false allLoadsOk).1 := by
  refine ⟨rfl, by decide, by decide⟩

/-- C4 counterexample: on a concrete render whose only clip fails to load,
the run exits with the load-failure error and no output, but the audio
context is never closed — refuting that all session resources are released
on every exit path. -/
theorem audio_graph_not_released_on_failure_cex :
    (concatVideos sampleTimeline1 true false false true noLoadsOk).2 =
      .error .loadFailure ∧
    Event.audioClosed ∉
      (concatVideos sampleTimeline1 true false false true noLoadsOk).1 := by
  refine ⟨rfl, by decide⟩

/-- C6 counterexample: for a render of total duration 2 s the code still
schedules the fixed 1.5 s fade (which exceeds half the total duration), so
the resulting gain at `t = 1/4` is 0 while the claimed clamped envelope
gives 1/4 — refuting that the fade duration is clamped to never exceed half
the total duration. -/
theorem fade_not_clamped_cex :
    AutomationEvent.linearRamp 1 fadeDuration ∈ gainSchedule 2 ∧
    ¬ fadeDuration ≤ (2 : ℚ) / 2 ∧
    gainAt 2 (1 / 4) = 0 ∧ specGain 2 (1 / 4) = 1 / 4 ∧
    gainAt 2 (1 / 4) ≠ specGain 2 (1 / 4) := by
  have h1 : gainSchedule 2 =
      [.setValue 0 0, .setValue 1 (1 / 2), .linearRamp 1 (3 / 2),
       .linearRamp 0 2] := by
    norm_num [gainSchedule, insertEvent, fadeDuration, AutomationEvent.time]
  have h2 : gainAt 2 (1 / 4) = 0 := by
    rw [gainAt, h1]; norm_num [evalSchedule]
  have h3 : specGain 2 (1 / 4) = 1 / 4 := by
    norm_num [specGain, specFadeDuration]
  refine ⟨?_, by norm_num [fadeDuration], h2, h3, ?_⟩
  · rw [h1]; norm_num [fadeDuration]
  · rw [h2, h3]; norm_num

/-- C8 counterexample: ingestion of a proposed entry with `cutDuration = 0`
for a known 5 s clip produces a timeline item whose `cutDuration` is 0,
which is not strictly positive — refuting that ingestion clamping ensures
`0 < cutDuration`. -/
theorem ingestion_allows_nonpositive_cut_cex :
    ingestTimeline [clipA] [{ clipId := "a", cutDuration := 0 }] =
      [{ clip := clipA, cutDuration := 0 }] ∧
    ¬ (0 : ℚ) < 0 := by
  refine ⟨by decide, by decide⟩

/-! ### Structure of the playback loop trace -/

/-- When every load in range succeeds, the playback loop emits exactly the
sequential concatenation of the per-clip blocks and completes. -/
theorem renderLoop_allOk (loadOk : ℕ → Bool) :
    ∀ (n i : ℕ), (∀ j, j < n → loadOk (i + j) = true) →
      renderLoop loadOk i n =
        (((List.range n).map (i + ·)).flatMap clipBlock, true) := by
  intro n
  induction n with
  | zero => intro i _; rfl
  | succ n ih =>
    intro i h
    have h0 : loadOk i = true := by simpa using h 0 (Nat.succ_pos n)
    have hrest : ∀ j, j < n → loadOk (i + 1 + j) = true := by
      intro j hj
      have e : i + 1 + j = i + (j + 1) := by omega
      rw [e]
      exact h (j + 1) (by omega)
    have hfun : ((i + ·) ∘ Nat.succ) = ((i + 1) + ·) := by
      funext k
      simp [Function.comp]
      omega
    simp [renderLoop, h0, ih (i + 1) hrest, List.range_succ_eq_map,
      List.map_map, hfun, List.flatMap_cons]

/-- If the playback loop completes, every load in range succeeded. -/
theorem renderLoop_snd_true (loadOk : ℕ → Bool) :
    ∀ (n i : ℕ), (renderLoop loadOk i n).2 = true →
      ∀ j, j < n → loadOk (i + j) = true := by
  intro n
  induction n with
  | zero => intro i _ j hj; omega
  | succ n ih =>
    intro i hs j hj
    by_cases h0 : loadOk i = true
    · have hs2 : (renderLoop loadOk (i + 1) n).2 = true := by
        simpa [renderLoop, h0] using hs
      rcases Nat.eq_zero_or_pos j with hj0 | hjp
      · simpa [hj0] using h0
      · have e : i + j = i + 1 + (j - 1) := by omega
        rw [e]
        exact ih (i + 1) hs2 (j - 1) (by omega)
    · have : (renderLoop loadOk i (n + 1)).2 = false := by
        simp [renderLoop, h0]
      rw [this] at hs
      cases hs

/-- If the playback loop aborts, its trace ends with the recorder stop of
the catch block. -/
theorem renderLoop_fail_getLast (loadOk : ℕ → Bool) :
    ∀ (n i : ℕ), (renderLoop loadOk i n).2 = false →
      (renderLoop loadOk i n).1.getLast? = some Event.recorderStopped := by
  intro n
  induction n with
  | zero => intro i hs; cases hs
  | succ n ih =>
    intro i hs
    by_cases h0 : loadOk i = true
    · have hs2 : (renderLoop loadOk (i + 1) n).2 = false := by
        simpa [renderLoop, h0] using hs
      have hlast := ih (i + 1) hs2
      have hne : (renderLoop loadOk (i + 1) n).1 ≠ [] := by
        intro hnil
        rw [hnil] at hlast
        cases hlast
      simp only [renderLoop, h0, if_true]
      rw [List.getLast?_append_of_ne_nil _ hne]
      exact hlast
    · simp [renderLoop, h0, failBlock]

/-- The playback loop never closes the audio context. -/
theorem renderLoop_no_audioClosed (loadOk : ℕ → Bool) :
    ∀ (n i : ℕ), Event.audioClosed ∉ (renderLoop loadOk i n).1 := by
  intro n
  induction n with
  | zero => intro i; simp [renderLoop]
  | succ n ih =>
    intro i
    by_cases h0 : loadOk i = true
    · simp [renderLoop, h0, clipBlock, ih (i + 1)]
    · simp [renderLoop, h0, failBlock]

/-- Helper: the full trace of a render in which every load succeeds is the
setup preamble, then the strictly sequential per-clip blocks, then the
finalisation events, with the blob delivered. -/
theorem concatVideos_allOk (timeline : List TimelineItem)
    (hasBgm useGPU h264Supported vp9Supported : Bool) (loadOk : ℕ → Bool)
    (hne : timeline ≠ [])
    (hok : ∀ j, j < timeline.length → loadOk j = true) :
    concatVideos timeline hasBgm useGPU h264Supported vp9Supported loadOk =
      (preamble timeline hasBgm useGPU h264Supported vp9Supported ++
        (List.range timeline.length).flatMap clipBlock ++
        [.recorderStopped, .finalProgressOne, .audioClosed], .ok ()) := by
  have hlen : ¬ timeline.length = 0 := by
    simpa [List.length_eq_zero] using hne
  have hok0 : ∀ j, j < timeline.length → loadOk (0 + j) = true := by
    intro j hj
    simpa using hok j hj
  have hid : ((0 : ℕ) + ·) = (id : ℕ → ℕ) := by
    funext k
    simp
  have hr := renderLoop_allOk loadOk timeline.length 0 hok0
  rw [hid, List.map_id] at hr
  simp [concatVideos, hlen, hr]

/-- C2 amended: the renderer does not double-buffer.  When every load
succeeds, the trace of a render is exactly the setup preamble followed by
the strictly sequential per-clip blocks followed by finalisation: before
each clip — including the first — the recorder is paused and the audio
context suspended, then the clip is loaded, the pipelines are resumed, and
the clip plays; clip `i+1` starts loading only after clip `i` has finished,
so every clip boundary waits for that clip's load I/O. -/
theorem sequential_loading_no_double_buffer (timeline : List TimelineItem)
    (hasBgm useGPU h264Supported vp9Supported : Bool) (loadOk : ℕ → Bool)
    (hne : timeline ≠ [])
    (hok : ∀ j, j < timeline.length → loadOk j = true) :
    concatVideos timeline hasBgm useGPU h264Supported vp9Supported loadOk =
      (preamble timeline hasBgm useGPU h264Supported vp9Supported ++
        (List.range timeline.length).flatMap clipBlock ++
        [.recorderStopped, .finalProgressOne, .audioClosed], .ok ()) :=
  concatVideos_allOk timeline hasBgm useGPU h264Supported vp9Supported
    loadOk hne hok

/-- C2 amended, witness at a concrete input. -/
theorem sequential_loading_no_double_buffer_w :
    concatVideos sampleTimeline false false false false allLoadsOk =
      (preamble sampleTimeline false false false false ++
        (List.range sampleTimeline.length).flatMap clipBlock ++
        [.recorderStopped, .finalProgressOne, .audioClosed], .ok ()) :=
  sequential_loading_no_double_buffer sampleTimeline false false false false
    allLoadsOk (by decide) (fun _ _ => rfl)

/-- Helper: summing a per-block event count over the sequential blocks. -/
theorem sum_map_count_clipBlock (e : Event) (c n : ℕ)
    (h : ∀ b, (clipBlock b).count e = c) :
    (List.map (List.count e ∘ clipBlock) (List.range n)).sum = n * c := by
  have hrep : List.map (List.count e ∘ clipBlock) (List.range n) =
      List.replicate n c := by
    rw [List.eq_replicate_iff]
    constructor
    · simp
    · intro b hb
      rcases List.mem_map.mp hb with ⟨k, _, hk⟩
      rw [← hk]
      exact h k
  rw [hrep, List.sum_replicate, smul_eq_mul]

/-- C1 amended: for a render with a background track in which every load
succeeds, the audio source is started exactly once, at the logical time
zero of the audio context, before recording and before any clip activity;
but the audio pipeline does not run undisturbed across clip boundaries:
the audio context is suspended once per timeline item — immediately before
each clip load, including the first — and resumed once that clip is ready. -/
theorem bgm_started_once_but_audio_suspended_per_clip
    (timeline : List TimelineItem) (useGPU h264Supported vp9Supported : Bool)
    (loadOk : ℕ → Bool) (hne : timeline ≠ [])
    (hok : ∀ j, j < timeline.length → loadOk j = true) :
    ((concatVideos timeline true useGPU h264Supported vp9Supported
        loadOk).1.count (Event.bgmStarted 0) = 1) ∧
    ((concatVideos timeline true useGPU h264Supported vp9Supported
        loadOk).1.take 5 =
      [.canvasCreated, .audioCtxCreated, .gainScheduled (totalOf timeline),
       .bgmDecoded, .bgmStarted 0]) ∧
    ((concatVideos timeline true useGPU h264Supported vp9Supported
        loadOk).1.count Event.audioSuspended = timeline.length) ∧
    ((concatVideos timeline true useGPU h264Supported vp9Supported
        loadOk).1.count Event.audioResumed = timeline.length) := by
  have htr := concatVideos_allOk timeline true useGPU h264Supported
    vp9Supported loadOk hne hok
  rw [htr]
  refine ⟨?_, ?_, ?_, ?_⟩
  · simp [preamble, List.count_append, List.count_flatMap, List.count_cons]
    rw [sum_map_count_clipBlock (Event.bgmStarted 0) 0 timeline.length
      (fun b => by simp [clipBlock])]
    simp
  · rw [List.append_assoc,
      List.take_append_of_le_length (by simp [preamble])]
    simp [preamble]
  · simp [preamble, List.count_append, List.count_flatMap, List.count_cons]
    rw [sum_map_count_clipBlock Event.audioSuspended 1 timeline.length
      (fun b => by simp [clipBlock])]
    simp
  · simp [preamble, List.count_append, List.count_flatMap, List.count_cons]
    rw [sum_map_count_clipBlock Event.audioResumed 1 timeline.length
      (fun b => by simp [clipBlock])]
    simp

/-- C1 amended, witness at a concrete input. -/
theorem bgm_started_once_but_audio_suspended_per_clip_w :
    ((concatVideos sampleTimeline true false false false
        allLoadsOk).1.count (Event.bgmStarted 0) = 1) ∧
    ((concatVideos sampleTimeline true false false false
        allLoadsOk).1.take 5 =
      [.canvasCreated, .audioCtxCreated, .gainScheduled (totalOf sampleTimeline),
       .bgmDecoded, .bgmStarted 0]) ∧
    ((concatVideos sampleTimeline true false false false
        allLoadsOk).1.count Event.audioSuspended = sampleTimeline.length) ∧
    ((concatVideos sampleTimeline true false false false
        allLoadsOk).1.count Event.audioResumed = sampleTimeline.length) :=
  bgm_started_once_but_audio_suspended_per_clip sampleTimeline false false
    false allLoadsOk (by decide) (fun _ _ => rfl)

/-- C3 amended: mime-type selection follows the code's policy — h264 when
hardware acceleration is requested and supported, else vp9 when supported,
else the plain `video/webm` container — and when no codec is supported the
render does not abort: the recorder is still created with the selected type
and the render proceeds. -/
theorem codec_selection_with_plain_fallback :
    (∀ useGPU h264Supported vp9Supported : Bool,
      ((useGPU && h264Supported) = true →
        selectMimeType useGPU h264Supported vp9Supported =
          "video/webm; codecs=h264") ∧
      ((useGPU && h264Supported) = false → vp9Supported = true →
        selectMimeType useGPU h264Supported vp9Supported =
          "video/webm; codecs=vp9") ∧
      ((useGPU && h264Supported) = false → vp9Supported = false →
        selectMimeType useGPU h264Supported vp9Supported = "video/webm")) ∧
    (∀ (timeline : List TimelineItem)
      (hasBgm useGPU h264Supported vp9Supported : Bool) (loadOk : ℕ → Bool),
      timeline ≠ [] →
      Event.recorderCreated (selectMimeType useGPU h264Supported vp9Supported) ∈
        (concatVideos timeline hasBgm useGPU h264Supported vp9Supported
          loadOk).1) := by
  constructor
  · decide
  · intro timeline hasBgm useGPU h264Supported vp9Supported loadOk hne
    have hlen : ¬ timeline.length = 0 := by
      simpa [List.length_eq_zero] using hne
    by_cases hr : (renderLoop loadOk 0 timeline.length).2 <;>
      cases hasBgm <;>
        simp [concatVideos, hlen, hr, preamble]

/-- C3 amended, witness at a concrete input. -/
theorem codec_selection_with_plain_fallback_w :
    Event.recorderCreated "video/webm" ∈
      (concatVideos sampleTimeline1 false true false false allLoadsOk).1 := by
  have h := codec_selection_with_plain_fallback.2 sampleTimeline1 false true
    false false allLoadsOk (by decide)
  simpa [selectMimeType] using h

/-- C4 amended: on the success path the recorder is stopped and the audio
context closed as the last action, and the blob is delivered; on a load
failure the render exits with the load-failure error and no output, the
recorder stop is the last emitted action, but the audio context is not
closed. -/
theorem release_on_success_only_and_no_partial_output
    (timeline : List TimelineItem)
    (hasBgm useGPU h264Supported vp9Supported : Bool) (loadOk : ℕ → Bool)
    (hne : timeline ≠ []) :
    ((∀ j, j < timeline.length → loadOk j = true) →
      (concatVideos timeline hasBgm useGPU h264Supported vp9Supported
        loadOk).2 = .ok () ∧
      (concatVideos timeline hasBgm useGPU h264Supported vp9Supported
        loadOk).1.getLast? = some Event.audioClosed) ∧
    ((¬ ∀ j, j < timeline.length → loadOk j = true) →
      (concatVideos timeline hasBgm useGPU h264Supported vp9Supported
        loadOk).2 = .error .loadFailure ∧
      Event.audioClosed ∉
        (concatVideos timeline hasBgm useGPU h264Supported vp9Supported
          loadOk).1 ∧
      (concatVideos timeline hasBgm useGPU h264Supported vp9Supported
        loadOk).1.getLast? = some Event.recorderStopped) := by
  have hlen : ¬ timeline.length = 0 := by
    simpa [List.length_eq_zero] using hne
  constructor
  · intro hok
    have htr := concatVideos_allOk timeline hasBgm useGPU h264Supported
      vp9Supported loadOk hne hok
    rw [htr]
    refine ⟨rfl, ?_⟩
    rw [List.getLast?_append_of_ne_nil _ (by simp)]
    rfl
  · intro hnok
    have hfail : (renderLoop loadOk 0 timeline.length).2 = false := by
      cases hsnd : (renderLoop loadOk 0 timeline.length).2
      · rfl
      · exact absurd
          (fun j hj => by
            simpa using renderLoop_snd_true loadOk timeline.length 0 hsnd j hj)
          hnok
    have htr : concatVideos timeline hasBgm useGPU h264Supported
        vp9Supported loadOk =
        (preamble timeline hasBgm useGPU h264Supported vp9Supported ++
          (renderLoop loadOk 0 timeline.length).1, .error .loadFailure) := by
      simp [concatVideos, hlen, hfail]
    rw [htr]
    have hlast := renderLoop_fail_getLast loadOk timeline.length 0 hfail
    have hne2 : (renderLoop loadOk 0 timeline.length).1 ≠ [] := by
      intro hnil
      rw [hnil] at hlast
      cases hlast
    refine ⟨rfl, ?_, ?_⟩
    · have h1 : Event.audioClosed ∉
          preamble timeline hasBgm useGPU h264Supported vp9Supported := by
        cases hasBgm <;> simp [preamble]
      have h2 := renderLoop_no_audioClosed loadOk timeline.length 0
      simp [List.mem_append]
      exact ⟨h1, h2⟩
    · rw [List.getLast?_append_of_ne_nil _ hne2]
      exact hlast

/-- C4 amended, witness at a concrete input (success side). -/
theorem release_on_success_only_and_no_partial_output_w :
    (concatVideos sampleTimeline1 true false false false allLoadsOk).2 =
      .ok () ∧
    (concatVideos sampleTimeline1 true false false false
      allLoadsOk).1.getLast? = some Event.audioClosed :=
  (release_on_success_only_and_no_partial_output sampleTimeline1 true false
    false false allLoadsOk (by decide)).1 (fun _ _ => rfl)

/-- C8 amended: ingestion clamps the proposed cut only from above — every
timeline item produced by `ingestTimeline` satisfies
`cutDuration ≤ clip.duration` — while strict positivity of `cutDuration` is
not enforced anywhere. -/
theorem ingestion_clamps_upper_bound_only (clips : List VideoClip)
    (raw : List ProposedItem) (item : TimelineItem)
    (hmem : item ∈ ingestTimeline clips raw) :
    item.cutDuration ≤ item.clip.duration := by
  rcases List.mem_filterMap.mp hmem with ⟨p, _, hp⟩
  rcases Option.map_eq_some'.mp hp with ⟨clip, _, hitem⟩
  rw [← hitem]
  exact min_le_right _ _

/-- C8 amended, witness at a concrete input. -/
theorem ingestion_clamps_upper_bound_only_w :
    ({ clip := clipA, cutDuration := 3 } : TimelineItem).cutDuration ≤
      ({ clip := clipA, cutDuration := 3 } : TimelineItem).clip.duration :=
  ingestion_clamps_upper_bound_only [clipA]
    [{ clipId := "a", cutDuration := 3 }] _ (by decide)

/-- C9: each composed frame uses the uniform scale
`min(canvasW/clipW, canvasH/clipH)`; the drawn rectangle of size
`clipW*scale` by `clipH*scale` at `((canvasW-w)/2, (canvasH-h)/2)` lies
fully inside the canvas, with equal margins on both sides of each axis,
and every canvas point outside that rectangle shows black. -/
theorem letterbox_contained_centered_black (vw vh : ℚ)
    (hw : 0 < vw) (hh : 0 < vh) :
    scaleFor vw vh = min (canvasW / vw) (canvasH / vh) ∧
    0 ≤ drawX vw vh ∧ drawX vw vh + drawnW vw vh ≤ canvasW ∧
    0 ≤ drawY vw vh ∧ drawY vw vh + drawnH vw vh ≤ canvasH ∧
    drawX vw vh = canvasW - (drawX vw vh + drawnW vw vh) ∧
    drawY vw vh = canvasH - (drawY vw vh + drawnH vw vh) ∧
    (∀ px py : ℚ,
      (px < drawX vw vh ∨ drawX vw vh + drawnW vw vh ≤ px ∨
       py < drawY vw vh ∨ drawY vw vh + drawnH vw vh ≤ py) →
      composedPixel vw vh px py = .black) := by
  have hcw : (0 : ℚ) < canvasW := by norm_num [canvasW]
  have hch : (0 : ℚ) < canvasH := by norm_num [canvasH]
  have hs0 : 0 ≤ scaleFor vw vh := by
    rw [scaleFor]
    exact le_min (div_pos hcw hw).le (div_pos hch hh).le
  have hW0 : 0 ≤ drawnW vw vh := mul_nonneg hw.le hs0
  have hH0 : 0 ≤ drawnH vw vh := mul_nonneg hh.le hs0
  have hWle : drawnW vw vh ≤ canvasW := by
    have h1 : scaleFor vw vh ≤ canvasW / vw := min_le_left _ _
    have h2 : vw * scaleFor vw vh ≤ vw * (canvasW / vw) :=
      mul_le_mul_of_nonneg_left h1 hw.le
    rw [mul_comm vw (canvasW / vw), div_mul_cancel₀ _ (ne_of_gt hw)] at h2
    exact h2
  have hHle : drawnH vw vh ≤ canvasH := by
    have h1 : scaleFor vw vh ≤ canvasH / vh := min_le_right _ _
    have h2 : vh * scaleFor vw vh ≤ vh * (canvasH / vh) :=
      mul_le_mul_of_nonneg_left h1 hh.le
    rw [mul_comm vh (canvasH / vh), div_mul_cancel₀ _ (ne_of_gt hh)] at h2
    exact h2
  refine ⟨rfl, ?_, ?_, ?_, ?_, ?_, ?_, ?_⟩
  · rw [drawX]; linarith
  · rw [drawX]; linarith
  · rw [drawY]; linarith
  · rw [drawY]; linarith
  · rw [drawX]; ring
  · rw [drawY]; ring
  · intro px py hout
    rw [composedPixel, if_neg]
    intro hc
    rcases hc with ⟨h1, h2, h3, h4⟩
    rcases hout with h | h | h | h <;> linarith

/-- C9, witness at a concrete input (a 1920 by 1080 landscape clip). -/
theorem letterbox_contained_centered_black_w :
    0 ≤ drawX 1920 1080 ∧ drawX 1920 1080 + drawnW 1920 1080 ≤ canvasW ∧
    0 ≤ drawY 1920 1080 ∧ drawY 1920 1080 + drawnH 1920 1080 ≤ canvasH := by
  have h := letterbox_contained_centered_black 1920 1080 (by norm_num)
    (by norm_num)
  exact ⟨h.2.1, h.2.2.1, h.2.2.2.1, h.2.2.2.2.1⟩

/-- C5: drawing for a timeline item halts by the cut check, not by content
end: a frame at time `t` is drawn exactly when `t` is below `cutDuration`
(for items with `0 < cutDuration ≤ clip.duration`, so the ended guard never
fires first), and the elapsed time of the last drawn frame is within one
frame interval (1/60 s) below `cutDuration` and never reaches it. -/
theorem cut_halts_within_one_frame (clipDuration cutDuration : ℚ)
    (hpos : 0 < cutDuration) (hle : cutDuration ≤ clipDuration) :
    (∀ k : ℕ, drawFrameStep clipDuration cutDuration (frameTime k) =
        .drawAndReport ↔ k < framesFor cutDuration) ∧
    cutDuration - frameInterval ≤ lastDrawnTime cutDuration ∧
    lastDrawnTime cutDuration < cutDuration := by
  have h60 : (0 : ℚ) < 60 := by norm_num
  have hstep : ∀ t : ℚ,
      drawFrameStep clipDuration cutDuration t = .drawAndReport ↔
        t < cutDuration := by
    intro t
    rw [drawFrameStep]
    split_ifs with h1 h2
    · simp only [reduceCtorEq, false_iff, not_lt]
      linarith
    · simp only [reduceCtorEq, false_iff, not_lt]
      linarith
    · simp only [true_iff]
      exact lt_of_not_le h2
  have hiff : ∀ k : ℕ, frameTime k < cutDuration ↔ k < framesFor cutDuration := by
    intro k
    rw [framesFor, Nat.lt_ceil, frameTime, frameInterval, mul_one_div,
      div_lt_iff₀ h60, mul_comm]
  have hN : 0 < framesFor cutDuration := by
    rw [framesFor, Nat.ceil_pos]
    positivity
  have hcast : ((framesFor cutDuration - 1 : ℕ) : ℚ) =
      (framesFor cutDuration : ℚ) - 1 := by
    push_cast [hN]
    ring
  have hub : ((framesFor cutDuration : ℚ) - 1) < 60 * cutDuration := by
    have hlt : framesFor cutDuration - 1 < framesFor cutDuration :=
      Nat.sub_lt hN Nat.one_pos
    have := Nat.lt_ceil.mp (by rw [← framesFor]; exact hlt)
    rw [hcast] at this
    exact this
  have hlb : 60 * cutDuration ≤ (framesFor cutDuration : ℚ) := by
    rw [framesFor]
    exact Nat.le_ceil _
  have hlast : lastDrawnTime cutDuration =
      ((framesFor cutDuration : ℚ) - 1) * (1 / 60) := by
    rw [lastDrawnTime, frameTime, frameInterval, hcast]
  refine ⟨fun k => (hstep (frameTime k)).trans (hiff k), ?_, ?_⟩
  · rw [hlast, frameInterval]
    linarith
  · rw [hlast]
    linarith

/-- C5, witness at a concrete input (`cutDuration = 1` on a 5 s clip). -/
theorem cut_halts_within_one_frame_w :
    (1 : ℚ) - frameInterval ≤ lastDrawnTime 1 ∧ lastDrawnTime 1 < 1 :=
  ⟨(cut_halts_within_one_frame 5 1 (by norm_num) (by norm_num)).2.1,
   (cut_halts_within_one_frame 5 1 (by norm_num) (by norm_num)).2.2⟩

/-- Helper: for any total duration of at least 3 s (that is, at least
`2 * fadeDuration`), the four automation calls of lines 232-235 land in the
parameter timeline in the chronological order set-0, ramp-up, hold start,
ramp-down. -/
theorem gainSchedule_of_le {T : ℚ} (hT : 3 ≤ T) :
    gainSchedule T =
      [.setValue 0 0, .linearRamp 1 (3 / 2), .setValue 1 (T - 3 / 2),
       .linearRamp 0 T] := by
  have e2 : insertEvent (.linearRamp 1 (3 / 2)) [.setValue 0 0] =
      [.setValue 0 0, .linearRamp 1 (3 / 2)] := by
    rw [insertEvent, if_neg (by norm_num [AutomationEvent.time])]
    rfl
  have e3 : insertEvent (.setValue 1 (T - 3 / 2))
      [.setValue 0 0, .linearRamp 1 (3 / 2)] =
      [.setValue 0 0, .linearRamp 1 (3 / 2), .setValue 1 (T - 3 / 2)] := by
    rw [insertEvent,
      if_neg (by simp only [AutomationEvent.time]; push_neg; linarith),
      insertEvent,
      if_neg (by simp only [AutomationEvent.time]; push_neg; linarith)]
    rfl
  have e4 : insertEvent (.linearRamp 0 T)
      [.setValue 0 0, .linearRamp 1 (3 / 2), .setValue 1 (T - 3 / 2)] =
      [.setValue 0 0, .linearRamp 1 (3 / 2), .setValue 1 (T - 3 / 2),
       .linearRamp 0 T] := by
    rw [insertEvent,
      if_neg (by simp only [AutomationEvent.time]; push_neg; linarith),
      insertEvent,
      if_neg (by simp only [AutomationEvent.time]; push_neg; linarith),
      insertEvent,
      if_neg (by simp only [AutomationEvent.time]; push_neg; linarith)]
    rfl
  rw [gainSchedule, fadeDuration]
  rw [show insertEvent (.setValue 0 0) ([] : List AutomationEvent) =
    [.setValue 0 0] from rfl, e2, e3, e4]

/-- C6 amended: the fade length is the fixed constant 1.5 s, with no
clamping against the total duration; for every render whose total duration
is at least `2 * fadeDuration`, the scheduled automation yields the
envelope gain 0 at 0, the linear ramp `t / fadeDuration` reaching 1 at
`fadeDuration`, the hold at 1 until `totalDuration - fadeDuration`, and the
linear ramp `(totalDuration - t) / fadeDuration` reaching 0 at
`totalDuration`, monotone within each ramp segment (so for
`totalDuration = 10`: gain(0)=0, gain(1.5)=1, gain(8.5)=1, gain(10)=0). -/
theorem envelope_unclamped_general (T : ℚ) (hT : 2 * fadeDuration ≤ T) :
    gainAt T 0 = 0 ∧ gainAt T fadeDuration = 1 ∧
    gainAt T (T - fadeDuration) = 1 ∧ gainAt T T = 0 ∧
    (∀ t : ℚ, 0 ≤ t → t ≤ fadeDuration → gainAt T t = t / fadeDuration) ∧
    (∀ t : ℚ, fadeDuration ≤ t → t ≤ T - fadeDuration → gainAt T t = 1) ∧
    (∀ t : ℚ, T - fadeDuration ≤ t → t ≤ T →
      gainAt T t = (T - t) / fadeDuration) ∧
    (∀ t₁ t₂ : ℚ, 0 ≤ t₁ → t₁ ≤ t₂ → t₂ ≤ fadeDuration →
      gainAt T t₁ ≤ gainAt T t₂) ∧
    (∀ t₁ t₂ : ℚ, T - fadeDuration ≤ t₁ → t₁ ≤ t₂ → t₂ ≤ T →
      gainAt T t₂ ≤ gainAt T t₁) := by
  rw [fadeDuration] at hT
  have hT3 : (3 : ℚ) ≤ T := by linarith
  have hsch := gainSchedule_of_le hT3
  have hup : ∀ t : ℚ, 0 ≤ t → t ≤ 3 / 2 → gainAt T t = t / (3 / 2) := by
    intro t h0 h1
    rw [gainAt, hsch]
    simp only [evalSchedule]
    rw [if_neg (not_lt.mpr h0)]
    by_cases hc : t < 3 / 2
    · rw [if_pos hc, if_pos (by norm_num : (0 : ℚ) < 3 / 2)]
      ring
    · have ht : t = 3 / 2 := le_antisymm h1 (not_lt.mp hc)
      subst ht
      rw [if_neg (lt_irrefl _)]
      by_cases hc2 : (3 : ℚ) / 2 < T - 3 / 2
      · rw [if_pos hc2]
        norm_num
      · have hT4 : T = 3 := by
          push_neg at hc2
          linarith
        subst hT4
        norm_num
  have hhold : ∀ t : ℚ, 3 / 2 ≤ t → t ≤ T - 3 / 2 → gainAt T t = 1 := by
    intro t h0 h1
    rw [gainAt, hsch]
    simp only [evalSchedule]
    rw [if_neg (by push_neg; linarith : ¬ t < 0), if_neg (not_lt.mpr h0)]
    by_cases hc : t < T - 3 / 2
    · rw [if_pos hc]
    · have ht : t = T - 3 / 2 := le_antisymm h1 (not_lt.mp hc)
      subst ht
      rw [if_neg (lt_irrefl _), if_pos (by linarith : T - 3 / 2 < T),
        if_pos (by linarith : T - 3 / 2 < T)]
      ring
  have hdown : ∀ t : ℚ, T - 3 / 2 ≤ t → t ≤ T →
      gainAt T t = (T - t) / (3 / 2) := by
    intro t h0 h1
    rw [gainAt, hsch]
    simp only [evalSchedule]
    rw [if_neg (by push_neg; linarith : ¬ t < 0),
      if_neg (by push_neg; linarith : ¬ t < 3 / 2),
      if_neg (not_lt.mpr h0)]
    by_cases hc : t < T
    · rw [if_pos hc, if_pos (by linarith : T - 3 / 2 < T),
        show T - (T - 3 / 2) = 3 / 2 from by ring]
      ring
    · have ht : t = T := le_antisymm h1 (not_lt.mp hc)
      rw [if_neg hc, ht]
      ring
  have g0 : gainAt T 0 = 0 := by
    rw [hup 0 le_rfl (by norm_num)]
    norm_num
  have gf : gainAt T (3 / 2) = 1 := hhold (3 / 2) le_rfl (by linarith)
  have gTf : gainAt T (T - 3 / 2) = 1 :=
    hhold (T - 3 / 2) (by linarith) le_rfl
  have gT : gainAt T T = 0 := by
    rw [hdown T (by linarith) le_rfl]
    ring
  refine ⟨g0, by rw [fadeDuration]; exact gf,
    by rw [fadeDuration]; exact gTf, gT, ?_, ?_, ?_, ?_, ?_⟩
  · intro t h0 h1
    rw [fadeDuration] at h1 ⊢
    exact hup t h0 h1
  · intro t h0 h1
    rw [fadeDuration] at h0 h1
    exact hhold t h0 h1
  · intro t h0 h1
    rw [fadeDuration] at h0 ⊢
    exact hdown t h0 h1
  · intro t₁ t₂ h0 h12 h2
    rw [fadeDuration] at h2
    rw [hup t₁ h0 (by linarith), hup t₂ (by linarith) h2]
    linarith
  · intro t₁ t₂ h0 h12 h2
    rw [fadeDuration] at h0
    rw [hdown t₁ h0 (by linarith), hdown t₂ (by linarith) h2]
    linarith

/-- C6 amended, witness at the spec example `totalDuration = 10`. -/
theorem envelope_unclamped_general_w :
    gainAt 10 0 = 0 ∧ gainAt 10 (3 / 2) = 1 ∧ gainAt 10 (17 / 2) = 1 ∧
    gainAt 10 10 = 0 ∧ gainAt 10 5 = 1 := by
  have h := envelope_unclamped_general 10 (by norm_num [fadeDuration])
  refine ⟨h.1, ?_, ?_, h.2.2.2.1, ?_⟩
  · have h2 := h.2.1
    rwa [fadeDuration] at h2
  · have h3 := h.2.2.1
    rw [fadeDuration] at h3
    norm_num at h3
    exact h3
  · exact h.2.2.2.2.2.1 5 (by norm_num [fadeDuration])
      (by norm_num [fadeDuration])

/-- Helper: a reported value is monotone in its numerator. -/
theorem report_mono {T a b : ℚ} (hT : 0 < T) (h : a ≤ b) :
    min (a / T) (99 / 100) ≤ min (b / T) (99 / 100) :=
  min_le_min ((div_le_div_iff_of_pos_right hT).mpr h) le_rfl

/-- Helper: frame times are monotone in the frame number. -/
theorem frameTime_mono {a b : ℕ} (h : a ≤ b) : frameTime a ≤ frameTime b := by
  rw [frameTime, frameTime, frameInterval]
  have hc : (a : ℚ) ≤ b := Nat.cast_le.mpr h
  linarith

/-- Helper: every frame drawn for a clip has elapsed time below the cut. -/
theorem frameTime_lt_of_lt_framesFor {d : ℚ} {k : ℕ}
    (h : k < framesFor d) : frameTime k < d := by
  rw [framesFor, Nat.lt_ceil] at h
  rw [frameTime, frameInterval, mul_one_div,
    div_lt_iff₀ (by norm_num : (0 : ℚ) < 60), mul_comm]
  exact h

/-- Helper: bounds on the values reported while one clip plays. -/
theorem clipReports_bounds {T P d r : ℚ} (hT : 0 < T) (hP : 0 ≤ P)
    (hr : r ∈ clipReports T P d) :
    min (P / T) (99 / 100) ≤ r ∧ 0 ≤ r ∧ r ≤ 99 / 100 ∧
    r ≤ min ((P + d) / T) (99 / 100) := by
  rcases List.mem_map.mp hr with ⟨k, hk, hrk⟩
  rw [← hrk]
  have hk2 : k < framesFor d := List.mem_range.mp hk
  have hft0 : 0 ≤ frameTime k := by
    rw [frameTime, frameInterval]
    positivity
  have hftd : frameTime k < d := frameTime_lt_of_lt_framesFor hk2
  refine ⟨report_mono hT (by linarith), ?_, min_le_right _ _,
    report_mono hT (by linarith)⟩
  exact le_min (div_nonneg (by linarith) hT.le) (by norm_num)

/-- Helper: bounds on all values reported over the playback loop. -/
theorem renderReports_bounds {T : ℚ} (hT : 0 < T) :
    ∀ (ds : List ℚ) (P : ℚ), 0 ≤ P → (∀ d ∈ ds, 0 ≤ d) →
      ∀ r ∈ renderReports T ds P,
        min (P / T) (99 / 100) ≤ r ∧ 0 ≤ r ∧ r ≤ 99 / 100 := by
  intro ds
  induction ds with
  | nil =>
    intro P _ _ r hr
    simp [renderReports] at hr
  | cons d rest ih =>
    intro P hP hds r hr
    rw [renderReports] at hr
    have hd : 0 ≤ d := hds d (by simp)
    rcases List.mem_append.mp hr with h | h
    · have hb := clipReports_bounds hT hP h
      exact ⟨hb.1, hb.2.1, hb.2.2.1⟩
    · have hP2 : 0 ≤ P + d := by linarith
      have hds2 : ∀ x ∈ rest, 0 ≤ x := fun x hx => hds x (by simp [hx])
      have hb := ih (P + d) hP2 hds2 r h
      exact ⟨le_trans (report_mono hT (by linarith)) hb.1, hb.2.1, hb.2.2⟩

/-- Helper: the values reported while one clip plays are non-decreasing. -/
theorem clipReports_pairwise {T P d : ℚ} (hT : 0 < T) :
    (clipReports T P d).Pairwise (· ≤ ·) := by
  rw [clipReports]
  exact List.Pairwise.map _
    (fun a b hab => report_mono hT (by
      have := frameTime_mono (le_of_lt hab)
      linarith))
    (List.pairwise_lt_range _)

/-- Helper: the values reported over the playback loop are non-decreasing. -/
theorem renderReports_pairwise {T : ℚ} (hT : 0 < T) :
    ∀ (ds : List ℚ) (P : ℚ), 0 ≤ P → (∀ d ∈ ds, 0 ≤ d) →
      (renderReports T ds P).Pairwise (· ≤ ·) := by
  intro ds
  induction ds with
  | nil =>
    intro P _ _
    simp [renderReports]
  | cons d rest ih =>
    intro P hP hds
    rw [renderReports]
    have hd : 0 ≤ d := hds d (by simp)
    have hP2 : 0 ≤ P + d := by linarith
    have hds2 : ∀ x ∈ rest, 0 ≤ x := fun x hx => hds x (by simp [hx])
    refine List.pairwise_append.mpr
      ⟨clipReports_pairwise hT, ih (P + d) hP2 hds2, ?_⟩
    intro a ha b hb
    have h1 := (clipReports_bounds hT hP ha).2.2.2
    have h2 := (renderReports_bounds hT rest (P + d) hP2 hds2 b hb).1
    exact le_trans h1 h2

/-- C7: after each drawn frame the progress callback receives
`min((processedDuration + elapsedInClip) / totalDuration, 0.99)` with the
denominator equal to the sum of the cut durations (the construction of
`allReports`); the reported sequence is monotonically non-decreasing, every
reported value lies in `[0, 1]`, and the value 1 is reported exactly once,
as the final report at finalisation. -/
theorem progress_reports_monotone_bounded_final_one (cuts : List ℚ)
    (hds : ∀ d ∈ cuts, 0 ≤ d) (hT : 0 < cuts.sum) :
    (allReports cuts).Pairwise (· ≤ ·) ∧
    (∀ r ∈ allReports cuts, 0 ≤ r ∧ r ≤ 1) ∧
    (allReports cuts).count 1 = 1 ∧
    (allReports cuts).getLast? = some 1 := by
  have hb := renderReports_bounds hT cuts 0 le_rfl hds
  refine ⟨?_, ?_, ?_, ?_⟩
  · rw [allReports]
    refine List.pairwise_append.mpr
      ⟨renderReports_pairwise hT cuts 0 le_rfl hds, by simp, ?_⟩
    intro a ha b hb2
    rw [List.mem_singleton] at hb2
    subst hb2
    have := (hb a ha).2.2
    linarith
  · intro r hr
    rw [allReports] at hr
    rcases List.mem_append.mp hr with h | h
    · have := hb r h
      exact ⟨this.2.1, by linarith [this.2.2]⟩
    · rw [List.mem_singleton] at h
      subst h
      norm_num
  · rw [allReports, List.count_append]
    have h0 : (renderReports cuts.sum cuts 0).count 1 = 0 := by
      rw [List.count_eq_zero]
      intro hmem
      have := (hb 1 hmem).2.2
      linarith
    rw [h0]
    simp
  · rw [allReports]
    exact List.getLast?_concat _

/-- C7, witness at a concrete input (a single 1/30 s cut: reports 0, 1/2,
then the final 1). -/
theorem progress_reports_monotone_bounded_final_one_w :
    (allReports [(1 : ℚ) / 30]).count 1 = 1 ∧
    (allReports [(1 : ℚ) / 30]).getLast? = some 1 := by
  have h := progress_reports_monotone_bounded_final_one [(1 : ℚ) / 30]
    (by
      intro d hd
      rw [List.mem_singleton] at hd
      subst hd
      norm_num)
    (by norm_num)
  exact ⟨h.2.2.1, h.2.2.2⟩

end SmartClip
